import Mathlib

/-!
Shallow embedding of `src/python-scripts/analyze_trace_relationships.py`
(robot-shop repository): the trace hierarchy reconstruction and
integrity-analysis engine.  The input is a data frame of span records,
modelled as a `List SpanRecord` in row order; pandas boolean-mask filters
become `List.filter`, Python dicts become association lists built by folds
(so that insertion and overwrite order is preserved exactly as in the
source), and the recursive `calculate_depth` walk becomes a well-founded
recursion whose measure is the set of parent identifiers not yet visited.
-/

namespace TraceAnalysis

/-- One row of the analyzed data frame.  The script reads the columns
`trace_id`, `span_id`, `parent_span_id`, `service_name`, `span_name` and
`span_kind`; the remaining columns (timestamps, durations, HTTP fields) are
never consulted by the analysis functions embedded here. -/
structure SpanRecord where
  trace_id : String
  span_id : String
  parent_span_id : String
  service_name : String
  span_name : String
  span_kind : Nat
deriving DecidableEq

/-! ### Association lists modelling Python dicts

A Python dict is modelled as a `List (String × α)` of its entries in
insertion order.  `lookupA` is `d.get(k)`, `hasKey` is `k in d`,
`mapValueAt` rewrites the value stored at one key in place, `insertA` is
`d[k] = v` (overwrite if the key is present, append otherwise), and
`appendChild` is `defaultdict(list)`'s `d[k].append(v)`. -/

def lookupA {α : Type} : List (String × α) → String → Option α
  | [], _ => none
  | p :: m, k => if p.1 = k then some p.2 else lookupA m k

def hasKey {α : Type} (m : List (String × α)) (k : String) : Bool :=
  (lookupA m k).isSome

def mapValueAt {α : Type} : List (String × α) → String → (α → α) → List (String × α)
  | [], _, _ => []
  | p :: m, k, g => (if p.1 = k then (p.1, g p.2) else p) :: mapValueAt m k g

def insertA {α : Type} (m : List (String × α)) (k : String) (v : α) :
    List (String × α) :=
  if hasKey m k then mapValueAt m k (fun _ => v) else m ++ [(k, v)]

def appendChild (m : List (String × List String)) (k v : String) :
    List (String × List String) :=
  if hasKey m k then mapValueAt m k (· ++ [v]) else m ++ [(k, [v])]

theorem lookupA_mapValueAt {α : Type} (m : List (String × α)) (k0 k : String) (g : α → α) :
    lookupA (mapValueAt m k0 g) k =
      if k0 = k then (lookupA m k).map g else lookupA m k := by
  induction m with
  | nil => by_cases h : k0 = k <;> simp [mapValueAt, lookupA, h]
  | cons p m ih =>
    by_cases hk : p.1 = k <;> by_cases h0 : p.1 = k0
    · have hkk : k0 = k := h0 ▸ hk
      simp [mapValueAt, lookupA, hk, h0, hkk]
    · have hkk : ¬ k0 = k := fun hh => h0 (hh ▸ hk)
      have hkk' : ¬ k = k0 := fun hh => hkk hh.symm
      simp [mapValueAt, lookupA, hk, h0, hkk, hkk']
    · have hkk : ¬ k0 = k := fun hh => hk (hh ▸ h0)
      simp only [mapValueAt, if_pos h0, lookupA, if_neg (show ¬ p.1 = k from hk)]
      simpa [hkk] using ih
    · simp only [mapValueAt, if_neg h0, lookupA, if_neg hk]
      exact ih

theorem lookupA_append_single {α : Type} (m : List (String × α)) (k0 k : String) (v : α) :
    lookupA (m ++ [(k0, v)]) k =
      ((lookupA m k).or (if k0 = k then some v else none)) := by
  induction m with
  | nil => by_cases h : k0 = k <;> simp [lookupA, h]
  | cons p m ih =>
    by_cases h : p.1 = k
    · simp [lookupA, h]
    · simpa [lookupA, h] using ih

theorem lookupA_insertA {α : Type} (m : List (String × α)) (k0 k : String) (v : α) :
    lookupA (insertA m k0 v) k = if k0 = k then some v else lookupA m k := by
  rw [insertA]
  by_cases hs : hasKey m k0
  · rw [if_pos hs, lookupA_mapValueAt]
    by_cases hk : k0 = k
    · subst hk
      obtain ⟨a, ha⟩ := Option.isSome_iff_exists.mp hs
      simp [ha]
    · simp [hk]
  · rw [if_neg hs, lookupA_append_single]
    by_cases hk : k0 = k
    · subst hk
      have hnone : lookupA m k0 = none := by
        simpa [hasKey, Option.not_isSome_iff_eq_none] using hs
      simp [hnone]
    · simp [hk]

theorem lookupA_appendChild (m : List (String × List String)) (k0 k v : String) :
    lookupA (appendChild m k0 v) k =
      if k0 = k then some (((lookupA m k).getD []) ++ [v]) else lookupA m k := by
  rw [appendChild]
  by_cases hs : hasKey m k0
  · rw [if_pos hs, lookupA_mapValueAt]
    by_cases hk : k0 = k
    · subst hk
      obtain ⟨a, ha⟩ := Option.isSome_iff_exists.mp hs
      simp [ha]
    · simp [hk]
  · rw [if_neg hs, lookupA_append_single]
    by_cases hk : k0 = k
    · subst hk
      have hnone : lookupA m k0 = none := by
        simpa [hasKey, Option.not_isSome_iff_eq_none] using hs
      simp [hnone]
    · simp [hk]

theorem getLast?_cons_or {α : Type} (a : α) (l : List α) :
    (a :: l).getLast? = (l.getLast?).or (some a) := by
  induction l generalizing a with
  | nil => rfl
  | cons b l ih =>
    rw [List.getLast?_cons_cons, ih b, Option.or_assoc]
    simp

/-! ### Frame selections (pandas boolean masks)

`root_spans = df[df['parent_span_id'] == '']` and
`child_spans = df[df['parent_span_id'] != '']` from
`analyze_span_relationships` (lines 47-48), reused by
`analyze_orphaned_spans` (line 87) and `analyze_trace_depth` (line 213). -/

def rootSpans (df : List SpanRecord) : List SpanRecord :=
  df.filter (fun r => r.parent_span_id == "")

def childSpans (df : List SpanRecord) : List SpanRecord :=
  df.filter (fun r => r.parent_span_id != "")

/-- The set of all span identifiers,
`all_span_ids = set(df['span_id'].unique())` (line 84); set membership is
list membership. -/
def allSpanIds (df : List SpanRecord) : List String :=
  df.map (·.span_id)

/-- The rows reported by `analyze_orphaned_spans` (lines 90-94): every child
span whose `parent_span_id` is not the `span_id` of any record in the whole
corpus. -/
def orphanedSpans (df : List SpanRecord) : List SpanRecord :=
  (childSpans df).filter (fun r => !((allSpanIds df).contains r.parent_span_id))

/-- The rows reported by the duplicate check
`df[df.duplicated(subset=['span_id'], keep=False)]` (line 38): with
`keep=False`, pandas marks every row whose `span_id` occurs on more than one
row, the first occurrence included. -/
def duplicateSpanIds (df : List SpanRecord) : List SpanRecord :=
  df.filter (fun r => 2 ≤ df.countP (fun s => s.span_id == r.span_id))

/-! ### The children adjacency

`span_to_children` is a `defaultdict(list)`; the loop at lines 180-192 of
`analyze_trace_depth` appends, for every row whose `parent_span_id` is
non-empty, the row's `span_id` to the children list of that parent, in row
order. -/

def buildChildren (df : List SpanRecord) : List (String × List String) :=
  df.foldl
    (fun m r => if r.parent_span_id != "" then appendChild m r.parent_span_id r.span_id else m)
    []

/-- `span_to_children.get(span_id, [])` (line 204). -/
def childrenOf (df : List SpanRecord) (pid : String) : List String :=
  (lookupA (buildChildren df) pid).getD []

theorem lookupA_buildChildren_go (df : List SpanRecord) (m : List (String × List String))
    (pid : String) :
    (lookupA
        (df.foldl
          (fun m r =>
            if r.parent_span_id != "" then appendChild m r.parent_span_id r.span_id else m)
          m)
        pid).getD [] =
      ((lookupA m pid).getD []) ++
        ((df.filter (fun r => r.parent_span_id != "" && r.parent_span_id == pid)).map
          (·.span_id)) := by
  induction df generalizing m with
  | nil => simp
  | cons r df ih =>
    rw [List.foldl_cons, ih, List.filter_cons]
    by_cases hp : r.parent_span_id = ""
    · simp [hp]
    · have hstep : (if (r.parent_span_id != "") = true
          then appendChild m r.parent_span_id r.span_id else m)
          = appendChild m r.parent_span_id r.span_id := by
        simp [hp]
      rw [hstep, lookupA_appendChild]
      by_cases hpid : r.parent_span_id = pid
      · subst hpid
        rw [if_pos rfl]
        simp [hp, List.append_assoc]
      · rw [if_neg hpid]
        simp [hp, hpid]

/-- The children list of `pid` is exactly the span ids of the rows whose
non-empty `parent_span_id` equals `pid`, in input order. -/
theorem childrenOf_eq_filter (df : List SpanRecord) (pid : String) :
    childrenOf df pid =
      (df.filter (fun r => r.parent_span_id != "" && r.parent_span_id == pid)).map
        (·.span_id) := by
  have h := lookupA_buildChildren_go df [] pid
  simpa [childrenOf, buildChildren, lookupA] using h

theorem mem_childrenOf (df : List SpanRecord) (pid c : String) :
    c ∈ childrenOf df pid ↔
      ∃ r ∈ df, r.parent_span_id ≠ "" ∧ r.parent_span_id = pid ∧ r.span_id = c := by
  rw [childrenOf_eq_filter]
  simp only [List.mem_map, List.mem_filter, Bool.and_eq_true, bne_iff_ne, ne_eq,
    beq_iff_eq]
  constructor
  · rintro ⟨r, ⟨hr, hne, hp⟩, hc⟩
    exact ⟨r, hr, hne, hp, hc⟩
  · rintro ⟨r, hr, hne, hp, hc⟩
    exact ⟨r, ⟨hr, hne, hp⟩, hc⟩

/-! ### The id-indexed dicts

`span_to_info` (lines 184-189) and `span_to_service = dict(zip(df['span_id'],
df['service_name']))` (line 266) both assign `d[span_id] = value` for every
row in order, so for a duplicated `span_id` the LAST row's value is the one
kept. -/

def buildDict {α : Type} (f : SpanRecord → α) (df : List SpanRecord) :
    List (String × α) :=
  df.foldl (fun m r => insertA m r.span_id (f r)) []

/-- Value stored by the `span_to_info[span_id] = ...` loop (lines 184-189). -/
structure SpanInfo where
  trace_id : String
  service : String
  span_name : String
  span_kind : Nat
deriving DecidableEq

def spanToInfo (df : List SpanRecord) : List (String × SpanInfo) :=
  buildDict (fun r => SpanInfo.mk r.trace_id r.service_name r.span_name r.span_kind) df

def spanToService (df : List SpanRecord) : List (String × String) :=
  buildDict (·.service_name) df

theorem lookupA_buildDict_go {α : Type} (f : SpanRecord → α) (df : List SpanRecord)
    (m : List (String × α)) (k : String) :
    lookupA (df.foldl (fun m r => insertA m r.span_id (f r)) m) k =
      (((df.filter (fun r => r.span_id == k)).map f).getLast?).or (lookupA m k) := by
  induction df generalizing m with
  | nil => simp
  | cons r df ih =>
    rw [List.foldl_cons, ih, List.filter_cons, lookupA_insertA]
    by_cases hk : r.span_id = k
    · subst hk
      rw [if_pos rfl]
      simp only [beq_self_eq_true, if_true, List.map_cons, getLast?_cons_or,
        Option.or_assoc]
      simp
    · rw [if_neg hk]
      simp [hk]

/-- Duplicate span ids resolve to the last row carrying them: the dict built
by repeated assignment keeps, for every key, the value of the last row whose
`span_id` is that key. -/
theorem lookupA_buildDict {α : Type} (f : SpanRecord → α) (df : List SpanRecord)
    (k : String) :
    lookupA (buildDict f df) k =
      ((df.filter (fun r => r.span_id == k)).map f).getLast? := by
  have h := lookupA_buildDict_go f df [] k
  simpa [buildDict, lookupA] using h

/-! ### The cycle-protected depth walk

`calculate_depth` (lines 195-210): a depth-first walk over
`span_to_children` carrying the set of span ids on the active path
(`visited`, modelled as the list of its elements; `visited.add` prepends,
`visited.copy()` is value semantics).  A span already on the path
contributes 0; a span with no children contributes 1; otherwise the result
is one more than the maximum over the children (Python's `max` over a
non-empty sequence of naturals equals `foldl Nat.max 0`).  Termination is by
the parent identifiers not yet visited. -/

def parentIds (df : List SpanRecord) : List String :=
  (df.filter (fun r => r.parent_span_id != "")).map (·.parent_span_id)

theorem mem_parentIds_of_children {df : List SpanRecord} {s : String}
    (h : childrenOf df s ≠ []) : s ∈ parentIds df := by
  rw [childrenOf_eq_filter] at h
  rcases List.exists_mem_of_ne_nil _ h with ⟨c, hc⟩
  rcases List.mem_map.mp hc with ⟨r, hr, _⟩
  rcases List.mem_filter.mp hr with ⟨hrdf, hpred⟩
  rcases Bool.and_eq_true .. |>.mp hpred with ⟨hne, hpid⟩
  exact List.mem_map.mpr ⟨r, List.mem_filter.mpr ⟨hrdf, hne⟩, beq_iff_eq.mp hpid⟩

def calculateDepth (df : List SpanRecord) (visited : List String) (spanId : String) : Nat :=
  if h1 : spanId ∈ visited then 0
  else if h2 : childrenOf df spanId = [] then 1
  else 1 + ((childrenOf df spanId).map
    (fun c => calculateDepth df (spanId :: visited) c)).foldl Nat.max 0
termination_by ((parentIds df).toFinset \ visited.toFinset).card
decreasing_by
  have hs : spanId ∈ (parentIds df).toFinset \ visited.toFinset := by
    rw [Finset.mem_sdiff, List.mem_toFinset, List.mem_toFinset]
    exact ⟨mem_parentIds_of_children h2, h1⟩
  apply Finset.card_lt_card
  rw [Finset.ssubset_iff_of_subset]
  · exact ⟨spanId, hs, by simp⟩
  · intro x hx
    rw [Finset.mem_sdiff, List.mem_toFinset, List.mem_toFinset] at hx ⊢
    exact ⟨hx.1, fun hh => hx.2 (List.mem_cons_of_mem _ hh)⟩

theorem calculateDepth_eq (df : List SpanRecord) (visited : List String) (s : String) :
    calculateDepth df visited s =
      if s ∈ visited then 0
      else if childrenOf df s = [] then 1
      else 1 + ((childrenOf df s).map
        (fun c => calculateDepth df (s :: visited) c)).foldl Nat.max 0 := by
  rw [calculateDepth]
  by_cases h1 : s ∈ visited
  · simp [h1]
  · by_cases h2 : childrenOf df s = [] <;> simp [h1, h2]

/-- A span already on the active path contributes depth 0 (the circular
reference protection at lines 200-201). -/
theorem calculateDepth_of_mem (df : List SpanRecord) (visited : List String)
    (s : String) (h : s ∈ visited) : calculateDepth df visited s = 0 := by
  rw [calculateDepth_eq, if_pos h]

/-! ### Per-trace depth and breadth

The loop at lines 218-231 of `analyze_trace_depth` walks the root spans in
row order; for each root it computes `calculate_depth(span_id)` and
`len(span_to_children.get(span_id, []))`, then stores both under the root's
`trace_id` — first occurrence assigns, later roots of the same trace take
the maximum. -/

def metricsStep (df : List SpanRecord)
    (m : List (String × Nat) × List (String × Nat)) (r : SpanRecord) :
    List (String × Nat) × List (String × Nat) :=
  let depth := calculateDepth df [] r.span_id
  let breadth := (childrenOf df r.span_id).length
  if hasKey m.1 r.trace_id then
    (mapValueAt m.1 r.trace_id (fun a => Nat.max a depth),
     mapValueAt m.2 r.trace_id (fun a => Nat.max a breadth))
  else (m.1 ++ [(r.trace_id, depth)], m.2 ++ [(r.trace_id, breadth)])

def traceMetrics (df : List SpanRecord) : List (String × Nat) × List (String × Nat) :=
  (rootSpans df).foldl (metricsStep df) ([], [])

/-- The dict `trace_depths`: per trace id, the depth of its deepest root. -/
def traceDepths (df : List SpanRecord) : List (String × Nat) :=
  (traceMetrics df).1

/-- The dict `trace_breadths`: per trace id, the breadth of its widest root. -/
def traceBreadths (df : List SpanRecord) : List (String × Nat) :=
  (traceMetrics df).2

/-- Folding `Nat.max` over a possibly missing accumulated value, as the
`if trace_id not in trace_depths` branch of lines 225-231 does. -/
def optFoldMax : Option Nat → List Nat → Option Nat
  | o, [] => o
  | none, v :: vs => optFoldMax (some v) vs
  | some a, v :: vs => optFoldMax (some (Nat.max a v)) vs

/-- The maximum of a list of per-root values: `none` when there is no root. -/
def optMaxList (l : List Nat) : Option Nat :=
  optFoldMax none l

theorem optFoldMax_nil (o : Option Nat) : optFoldMax o [] = o := by
  cases o <;> rfl

theorem optFoldMax_some (a : Nat) (l : List Nat) :
    optFoldMax (some a) l = some (l.foldl Nat.max a) := by
  induction l generalizing a with
  | nil => rfl
  | cons v vs ih => rw [optFoldMax, ih, List.foldl_cons]

theorem optFoldMax_isSome (o : Option Nat) (l : List Nat) :
    (optFoldMax o l).isSome = (o.isSome || !l.isEmpty) := by
  cases o with
  | none =>
    cases l with
    | nil => rfl
    | cons v vs => rw [optFoldMax, optFoldMax_some]; simp [List.isEmpty]
  | some a => rw [optFoldMax_some]; simp

theorem foldl_metricsStep_lookup (df : List SpanRecord) (roots : List SpanRecord)
    (m1 m2 : List (String × Nat))
    (hkeys : ∀ k, (lookupA m1 k).isSome = (lookupA m2 k).isSome) (k : String) :
    (∀ k', (lookupA (roots.foldl (metricsStep df) (m1, m2)).1 k').isSome =
      (lookupA (roots.foldl (metricsStep df) (m1, m2)).2 k').isSome) ∧
    lookupA (roots.foldl (metricsStep df) (m1, m2)).1 k =
      optFoldMax (lookupA m1 k)
        ((roots.filter (fun r => r.trace_id == k)).map
          (fun r => calculateDepth df [] r.span_id)) ∧
    lookupA (roots.foldl (metricsStep df) (m1, m2)).2 k =
      optFoldMax (lookupA m2 k)
        ((roots.filter (fun r => r.trace_id == k)).map
          (fun r => (childrenOf df r.span_id).length)) := by
  induction roots generalizing m1 m2 k with
  | nil =>
    refine ⟨hkeys, ?_, ?_⟩ <;> simp [optFoldMax_nil]
  | cons r roots ih =>
    rw [List.foldl_cons]
    have hstep : metricsStep df (m1, m2) r =
        (if hasKey m1 r.trace_id then
          (mapValueAt m1 r.trace_id (fun a => Nat.max a (calculateDepth df [] r.span_id)),
           mapValueAt m2 r.trace_id (fun a => Nat.max a ((childrenOf df r.span_id).length)))
        else (m1 ++ [(r.trace_id, calculateDepth df [] r.span_id)],
              m2 ++ [(r.trace_id, (childrenOf df r.span_id).length)])) := rfl
    by_cases hk : hasKey m1 r.trace_id
    · rw [hstep, if_pos hk]
      have hkeys' : ∀ k', (lookupA (mapValueAt m1 r.trace_id
          (fun a => Nat.max a (calculateDepth df [] r.span_id))) k').isSome =
          (lookupA (mapValueAt m2 r.trace_id
          (fun a => Nat.max a ((childrenOf df r.span_id).length))) k').isSome := by
        intro k'
        rw [lookupA_mapValueAt, lookupA_mapValueAt]
        by_cases hkk : r.trace_id = k' <;> simp [hkk, hkeys k']
      refine ⟨(ih _ _ hkeys' k).1, ?_, ?_⟩
      · rw [(ih _ _ hkeys' k).2.1, lookupA_mapValueAt, List.filter_cons]
        by_cases hkk : r.trace_id = k
        · subst hkk
          obtain ⟨a, ha⟩ := Option.isSome_iff_exists.mp hk
          simp only [beq_self_eq_true, if_pos rfl, if_true, List.map_cons, ha]
          rfl
        · simp [hkk]
      · rw [(ih _ _ hkeys' k).2.2, lookupA_mapValueAt, List.filter_cons]
        by_cases hkk : r.trace_id = k
        · subst hkk
          have hk2 : (lookupA m2 r.trace_id).isSome := by
            rw [← hkeys]; exact hk
          obtain ⟨a, ha⟩ := Option.isSome_iff_exists.mp hk2
          simp only [beq_self_eq_true, if_pos rfl, if_true, List.map_cons, ha]
          rfl
        · simp [hkk]
    · rw [hstep, if_neg hk]
      have hk2 : ¬ (lookupA m2 r.trace_id).isSome := by
        rw [← hkeys]; exact hk
      have h1none : lookupA m1 r.trace_id = none :=
        Option.not_isSome_iff_eq_none.mp hk
      have h2none : lookupA m2 r.trace_id = none :=
        Option.not_isSome_iff_eq_none.mp hk2
      have hkeys' : ∀ k', (lookupA (m1 ++ [(r.trace_id, calculateDepth df [] r.span_id)]) k').isSome =
          (lookupA (m2 ++ [(r.trace_id, (childrenOf df r.span_id).length)]) k').isSome := by
        intro k'
        rw [lookupA_append_single, lookupA_append_single]
        by_cases hkk : r.trace_id = k'
        · subst hkk
          simp [h1none, h2none]
        · simp [hkk, hkeys k']
      refine ⟨(ih _ _ hkeys' k).1, ?_, ?_⟩
      · rw [(ih _ _ hkeys' k).2.1, lookupA_append_single, List.filter_cons]
        by_cases hkk : r.trace_id = k
        · subst hkk
          simp only [beq_self_eq_true, if_pos rfl, if_true, List.map_cons, h1none]
          rfl
        · simp [hkk]
      · rw [(ih _ _ hkeys' k).2.2, lookupA_append_single, List.filter_cons]
        by_cases hkk : r.trace_id = k
        · subst hkk
          simp only [beq_self_eq_true, if_pos rfl, if_true, List.map_cons, h2none]
          rfl
        · simp [hkk]

/-- The roots of one trace, in row order. -/
def rootsOfTrace (df : List SpanRecord) (tid : String) : List SpanRecord :=
  (rootSpans df).filter (fun r => r.trace_id == tid)

/-- The entry of `trace_depths` for a trace is the maximum of
`calculate_depth` over the trace's roots, and is absent exactly when the
trace has no root. -/
theorem lookupA_traceDepths (df : List SpanRecord) (tid : String) :
    lookupA (traceDepths df) tid =
      optMaxList ((rootsOfTrace df tid).map (fun r => calculateDepth df [] r.span_id)) := by
  have h := foldl_metricsStep_lookup df (rootSpans df) [] [] (fun _ => rfl) tid
  exact h.2.1

/-- The entry of `trace_breadths` for a trace is the maximum root breadth. -/
theorem lookupA_traceBreadths (df : List SpanRecord) (tid : String) :
    lookupA (traceBreadths df) tid =
      optMaxList ((rootsOfTrace df tid).map (fun r => (childrenOf df r.span_id).length)) := by
  have h := foldl_metricsStep_lookup df (rootSpans df) [] [] (fun _ => rfl) tid
  exact h.2.2

/-! ### Cross-service calls

`analyze_cross_service_calls` (lines 259-299): for every row with a
non-empty `parent_span_id` that is a key of `span_to_service`, compare the
parent's service with the row's own; when they differ, record the call. -/

structure CrossCall where
  parent_service : String
  child_service : String
  trace_id : String
  parent_span_id : String
  child_span_id : String
deriving DecidableEq

/-- The body of the loop at lines 273-286, for one row, against a given
`span_to_service` dict. -/
def crossCallOf (svc : List (String × String)) (r : SpanRecord) : Option CrossCall :=
  match lookupA svc r.parent_span_id with
  | some ps =>
    if ps != r.service_name then
      some ⟨ps, r.service_name, r.trace_id, r.parent_span_id, r.span_id⟩
    else none
  | none => none

def crossServiceCalls (df : List SpanRecord) : List CrossCall :=
  (childSpans df).filterMap (crossCallOf (spanToService df))

/-- Size of the `(parent_service, child_service)` group in the
`groupby(['parent_service', 'child_service']).size()` aggregation
(lines 293 and 297). -/
def edgeCount (df : List SpanRecord) (p c : String) : Nat :=
  (crossServiceCalls df).countP
    (fun cc => cc.parent_service == p && cc.child_service == c)

/-! ### Multi-root traces

`analyze_trace_structure` (lines 153-163): per trace (pandas `groupby`
visits the distinct trace ids in ascending order), count the rows whose
`parent_span_id` is empty, and report the traces where this count exceeds
one. -/

def rootCount (df : List SpanRecord) (tid : String) : Nat :=
  ((df.filter (fun r => r.trace_id == tid)).filter
    (fun r => r.parent_span_id == "")).length

def traceIds (df : List SpanRecord) : List String :=
  ((df.map (·.trace_id)).dedup).mergeSort (· ≤ ·)

def multiRootTraces (df : List SpanRecord) : List (String × Nat) :=
  (traceIds df).filterMap
    (fun t => if 1 < rootCount df t then some (t, rootCount df t) else none)

theorem mem_traceIds (df : List SpanRecord) (t : String) :
    t ∈ traceIds df ↔ t ∈ df.map (·.trace_id) := by
  rw [traceIds, (List.mergeSort_perm _ _).mem_iff, List.mem_dedup]

theorem rootCount_eq_rootsOfTrace (df : List SpanRecord) (tid : String) :
    rootCount df tid = (rootsOfTrace df tid).length := by
  rw [rootCount, rootsOfTrace, rootSpans, List.filter_filter, List.filter_filter]
  congr 1
  apply List.filter_congr
  intro r _
  rw [Bool.and_comm]

/-! ### Acyclicity and the recursive depth equation

An acyclic parent relation is witnessed by a rank function that strictly
decreases from parent to child; under it the visited set never fires, so
`calculate_depth` satisfies the plain recursive definition of depth. -/

theorem calculateDepth_visited_free_aux (df : List SpanRecord) (rank : String → Nat)
    (hrank : ∀ p c, c ∈ childrenOf df p → rank c < rank p) :
    ∀ n s visited, rank s ≤ n → (∀ v ∈ visited, rank s < rank v) →
      calculateDepth df visited s = calculateDepth df [] s := by
  intro n
  induction n with
  | zero =>
    intro s visited hn hvis
    have hsv : s ∉ visited := fun h => absurd (hvis s h) (lt_irrefl _)
    rw [calculateDepth_eq, if_neg hsv, calculateDepth_eq,
      if_neg (List.not_mem_nil s)]
    by_cases hc : childrenOf df s = []
    · rw [if_pos hc, if_pos hc]
    · rcases List.exists_mem_of_ne_nil _ hc with ⟨c, hcs⟩
      have := hrank s c hcs
      omega
  | succ n ih =>
    intro s visited hn hvis
    have hsv : s ∉ visited := fun h => absurd (hvis s h) (lt_irrefl _)
    rw [calculateDepth_eq, if_neg hsv, calculateDepth_eq,
      if_neg (List.not_mem_nil s)]
    by_cases hc : childrenOf df s = []
    · rw [if_pos hc, if_pos hc]
    · rw [if_neg hc, if_neg hc]
      congr 1
      congr 1
      apply List.map_congr_left
      intro c hcs
      have hcr : rank c < rank s := hrank s c hcs
      have h1 : calculateDepth df (s :: visited) c = calculateDepth df [] c := by
        apply ih c (s :: visited) (by omega)
        intro v hv
        rcases List.mem_cons.mp hv with hv | hv
        · subst hv; exact hcr
        · exact lt_trans hcr (hvis v hv)
      have h2 : calculateDepth df [s] c = calculateDepth df [] c := by
        apply ih c [s] (by omega)
        intro v hv
        rcases List.mem_cons.mp hv with hv | hv
        · subst hv; exact hcr
        · exact absurd hv (List.not_mem_nil v)
      rw [h1, h2]

theorem calculateDepth_visited_free (df : List SpanRecord) (rank : String → Nat)
    (hrank : ∀ p c, c ∈ childrenOf df p → rank c < rank p)
    (s : String) (visited : List String) (hvis : ∀ v ∈ visited, rank s < rank v) :
    calculateDepth df visited s = calculateDepth df [] s :=
  calculateDepth_visited_free_aux df rank hrank (rank s) s visited le_rfl hvis

/-- Under an acyclic parent relation the walk computes the textbook
recursion: depth is 1 at a childless span, else one plus the maximum of the
children's depths. -/
theorem calculateDepth_recursion (df : List SpanRecord) (rank : String → Nat)
    (hrank : ∀ p c, c ∈ childrenOf df p → rank c < rank p) (s : String) :
    calculateDepth df [] s =
      if childrenOf df s = [] then 1
      else 1 + ((childrenOf df s).map (fun c => calculateDepth df [] c)).foldl Nat.max 0 := by
  rw [calculateDepth_eq, if_neg (List.not_mem_nil s)]
  by_cases hc : childrenOf df s = []
  · rw [if_pos hc, if_pos hc]
  · rw [if_neg hc, if_neg hc]
    congr 1
    congr 1
    apply List.map_congr_left
    intro c hcs
    exact calculateDepth_visited_free df rank hrank c [s]
      (fun v hv => by
        rcases List.mem_cons.mp hv with hv | hv
        · rw [hv]; exact hrank s c hcs
        · exact absurd hv (List.not_mem_nil v))

theorem crossCalls_countP (svc : List (String × String)) (l : List SpanRecord)
    (p c : String) (hpc : p ≠ c) :
    ((l.filter (fun r => r.parent_span_id != "")).filterMap (crossCallOf svc)).countP
        (fun cc => cc.parent_service == p && cc.child_service == c) =
      (l.filter (fun r => r.parent_span_id != "" &&
        (lookupA svc r.parent_span_id == some p) && (r.service_name == c))).length := by
  rw [List.countP_filterMap, List.countP_filter, ← List.countP_eq_length_filter]
  apply List.countP_congr
  intro r _
  cases hsv : lookupA svc r.parent_span_id with
  | none => simp [crossCallOf, hsv]
  | some ps =>
    by_cases hps : ps = r.service_name
    · subst hps
      constructor
      · intro h
        exfalso
        simp [crossCallOf, hsv] at h
      · intro h
        exfalso
        simp only [Bool.and_eq_true, bne_iff_ne, ne_eq, beq_iff_eq, hsv,
          Option.some.injEq] at h
        exact hpc (h.1.2.symm.trans h.2)
    · have hcall : crossCallOf svc r =
          some ⟨ps, r.service_name, r.trace_id, r.parent_span_id, r.span_id⟩ := by
        simp [crossCallOf, hsv, hps]
      rw [hcall]
      constructor
      · intro h
        simp only [Option.map_some', Option.getD_some, Bool.and_eq_true,
          beq_iff_eq, bne_iff_ne, ne_eq] at h
        simp only [Bool.and_eq_true, bne_iff_ne, ne_eq, beq_iff_eq, hsv,
          Option.some.injEq]
        exact ⟨⟨h.2, h.1.1⟩, h.1.2⟩
      · intro h
        simp only [Bool.and_eq_true, bne_iff_ne, ne_eq, beq_iff_eq, hsv,
          Option.some.injEq] at h
        simp only [Option.map_some', Option.getD_some, Bool.and_eq_true,
          beq_iff_eq, bne_iff_ne, ne_eq]
        exact ⟨⟨h.1.2, h.2⟩, h.1.1⟩

theorem crossCall_services_ne (df : List SpanRecord) (cc : CrossCall)
    (h : cc ∈ crossServiceCalls df) : cc.parent_service ≠ cc.child_service := by
  rcases List.mem_filterMap.mp h with ⟨r, -, hcc⟩
  cases hsv : lookupA (spanToService df) r.parent_span_id with
  | none => simp [crossCallOf, hsv] at hcc
  | some ps =>
    by_cases hps : ps = r.service_name
    · simp [crossCallOf, hsv, hps] at hcc
    · simp only [crossCallOf, hsv, Option.some.injEq] at hcc
      rw [if_pos (by simpa using hps)] at hcc
      rw [← Option.some.injEq] at hcc
      cases hcc
      simpa using hps

/-! ### Trace-id independence

The adjacency, the depth walk, the breadth count and the cross-service
edges are keyed solely by span identifiers: relabelling every record's
`trace_id` arbitrarily changes none of them. -/

def relabel (f : SpanRecord → String) (df : List SpanRecord) : List SpanRecord :=
  df.map (fun r => { r with trace_id := f r })

theorem childrenOf_relabel (f : SpanRecord → String) (df : List SpanRecord)
    (p : String) : childrenOf (relabel f df) p = childrenOf df p := by
  rw [childrenOf_eq_filter, childrenOf_eq_filter, relabel]
  induction df with
  | nil => rfl
  | cons r df ih =>
    rw [List.map_cons, List.filter_cons, List.filter_cons]
    by_cases h : (r.parent_span_id != "" && r.parent_span_id == p) = true <;>
      simp [h, ih]

theorem measure_decreases (df : List SpanRecord) (visited : List String) (s : String)
    (h1 : s ∉ visited) (h2 : childrenOf df s ≠ []) :
    ((parentIds df).toFinset \ (s :: visited).toFinset).card <
      ((parentIds df).toFinset \ visited.toFinset).card := by
  have hs : s ∈ (parentIds df).toFinset \ visited.toFinset := by
    rw [Finset.mem_sdiff, List.mem_toFinset, List.mem_toFinset]
    exact ⟨mem_parentIds_of_children h2, h1⟩
  apply Finset.card_lt_card
  rw [Finset.ssubset_iff_of_subset]
  · exact ⟨s, hs, by simp⟩
  · intro x hx
    rw [Finset.mem_sdiff, List.mem_toFinset, List.mem_toFinset] at hx ⊢
    exact ⟨hx.1, fun hh => hx.2 (List.mem_cons_of_mem _ hh)⟩

theorem calculateDepth_congr_aux (df1 df2 : List SpanRecord)
    (h : ∀ p, childrenOf df1 p = childrenOf df2 p) :
    ∀ n visited s, ((parentIds df1).toFinset \ visited.toFinset).card ≤ n →
      calculateDepth df1 visited s = calculateDepth df2 visited s := by
  intro n
  induction n with
  | zero =>
    intro visited s hn
    rw [calculateDepth_eq, calculateDepth_eq, ← h s]
    by_cases h1 : s ∈ visited
    · rw [if_pos h1, if_pos h1]
    · rw [if_neg h1, if_neg h1]
      by_cases h2 : childrenOf df1 s = []
      · rw [if_pos h2, if_pos h2]
      · exact absurd (Nat.lt_of_lt_of_le (measure_decreases df1 visited s h1 h2) hn)
          (Nat.not_lt_zero _)
  | succ n ih =>
    intro visited s hn
    rw [calculateDepth_eq, calculateDepth_eq, ← h s]
    by_cases h1 : s ∈ visited
    · rw [if_pos h1, if_pos h1]
    · rw [if_neg h1, if_neg h1]
      by_cases h2 : childrenOf df1 s = []
      · rw [if_pos h2, if_pos h2]
      · rw [if_neg h2, if_neg h2]
        congr 1
        congr 1
        apply List.map_congr_left
        intro c _
        apply ih (s :: visited) c
        have := measure_decreases df1 visited s h1 h2
        omega

theorem calculateDepth_congr (df1 df2 : List SpanRecord)
    (h : ∀ p, childrenOf df1 p = childrenOf df2 p) (visited : List String)
    (s : String) : calculateDepth df1 visited s = calculateDepth df2 visited s :=
  calculateDepth_congr_aux df1 df2 h
    ((parentIds df1).toFinset \ visited.toFinset).card visited s le_rfl

theorem calculateDepth_relabel (f : SpanRecord → String) (df : List SpanRecord)
    (visited : List String) (s : String) :
    calculateDepth (relabel f df) visited s = calculateDepth df visited s :=
  calculateDepth_congr (relabel f df) df (childrenOf_relabel f df) visited s

theorem spanToService_relabel (f : SpanRecord → String) (df : List SpanRecord) :
    spanToService (relabel f df) = spanToService df := by
  rw [spanToService, spanToService, buildDict, buildDict, relabel, List.foldl_map]

theorem childSpans_relabel (f : SpanRecord → String) (df : List SpanRecord) :
    childSpans (relabel f df) = (childSpans df).map (fun r => { r with trace_id := f r }) := by
  rw [childSpans, childSpans, relabel, List.filter_map]
  rfl

theorem crossServiceCalls_relabel (f : SpanRecord → String) (df : List SpanRecord) :
    (crossServiceCalls (relabel f df)).map (fun cc => (cc.parent_service, cc.child_service)) =
      (crossServiceCalls df).map (fun cc => (cc.parent_service, cc.child_service)) := by
  rw [crossServiceCalls, crossServiceCalls, spanToService_relabel, childSpans_relabel,
    List.filterMap_map, List.map_filterMap, List.map_filterMap]
  apply List.filterMap_congr
  intro r _
  show ((crossCallOf (spanToService df) { r with trace_id := f r }).map
      (fun cc => (cc.parent_service, cc.child_service))) =
    ((crossCallOf (spanToService df) r).map (fun cc => (cc.parent_service, cc.child_service)))
  cases hsv : lookupA (spanToService df) r.parent_span_id with
  | none => simp [crossCallOf, hsv]
  | some ps =>
    by_cases hps : ps = r.service_name
    · simp [crossCallOf, hsv, hps]
    · simp [crossCallOf, hsv, hps]

theorem allSpanIds_relabel (f : SpanRecord → String) (df : List SpanRecord) :
    allSpanIds (relabel f df) = allSpanIds df := by
  rw [allSpanIds, allSpanIds, relabel, List.map_map]
  rfl

theorem orphanedSpans_relabel (f : SpanRecord → String) (df : List SpanRecord) :
    (orphanedSpans (relabel f df)).map (·.span_id) =
      (orphanedSpans df).map (·.span_id) := by
  rw [orphanedSpans, orphanedSpans, allSpanIds_relabel, childSpans_relabel,
    List.filter_map, List.map_map]
  rfl

/-! ### Fallible Python operations

The script's only failure points on a well-typed frame are Python-level
arithmetic and indexing: `a / b` raises `ZeroDivisionError` when `b = 0`,
`l[i]` raises `IndexError` out of range, and `min`/`max` raise `ValueError`
on an empty sequence.  Floats are modelled as rationals; only the
raise/return distinction matters to the claims below.  pandas aggregations
(`.mean()`, `.min()`, ... of a possibly empty series) return NaN without
raising and are therefore not modelled as fallible. -/

inductive PyError
  | zeroDivision
  | indexError
  | valueError
deriving DecidableEq

def pyDiv (a b : Nat) : Except PyError ℚ :=
  if b = 0 then .error .zeroDivision else .ok ((a : ℚ) / (b : ℚ))

def pyIndex {α : Type} (l : List α) (i : Nat) : Except PyError α :=
  match l.get? i with
  | some v => .ok v
  | none => .error .indexError

def pyMin (l : List Nat) : Except PyError Nat :=
  match l with
  | [] => .error .valueError
  | v :: vs => .ok (vs.foldl Nat.min v)

def pyMax (l : List Nat) : Except PyError Nat :=
  match l with
  | [] => .error .valueError
  | v :: vs => .ok (vs.foldl Nat.max v)

/-- Python `max(d, key=d.get)` over a dict of naturals: the first key whose
value is maximal; `ValueError` on an empty dict. -/
def pyMaxKey (m : List (String × Nat)) : Except PyError String :=
  match m with
  | [] => .error .valueError
  | p :: ps => .ok ((ps.foldl (fun best q => if best.2 < q.2 then q else best) p).1)

/-- The distinct `span_kind` values in ascending order, as
`value_counts().sort_index()` enumerates them. -/
def kindValues (l : List SpanRecord) : List Nat :=
  ((l.map (·.span_kind)).dedup).mergeSort (· ≤ ·)

def kindCounts (l : List SpanRecord) : List (Nat × Nat) :=
  (kindValues l).map (fun k => (k, l.countP (fun r => r.span_kind == k)))

/-- The per-kind percentage loop (lines 64-66 and 71-73): one Python
division `count / len(group) * 100` per kind present. -/
def kindPcts (l : List (Nat × Nat)) (n : Nat) : Except PyError (List (Nat × ℚ)) :=
  match l with
  | [] => .ok []
  | kc :: rest =>
    pyDiv kc.2 n >>= fun q =>
    kindPcts rest n >>= fun tail =>
    pure ((kc.1, q * 100) :: tail)

/-- What `analyze_span_relationships` (lines 21-75) computes: the duplicate
report and the hierarchy percentages.  The percentages at lines 51-52 divide
by `total_spans`; the per-kind percentages divide by the sizes of the root
and child groups. -/
structure RelReport where
  duplicates : List SpanRecord
  rootPct : ℚ
  childPct : ℚ
  rootKindPcts : List (Nat × ℚ)
  childKindPcts : List (Nat × ℚ)

def analyzeSpanRelationships (df : List SpanRecord) : Except PyError RelReport :=
  pyDiv (rootSpans df).length df.length >>= fun rootFrac =>
  pyDiv (childSpans df).length df.length >>= fun childFrac =>
  kindPcts (kindCounts (rootSpans df)) (rootSpans df).length >>= fun rootKindPcts =>
  kindPcts (kindCounts (childSpans df)) (childSpans df).length >>= fun childKindPcts =>
  pure ⟨duplicateSpanIds df, rootFrac * 100, childFrac * 100, rootKindPcts, childKindPcts⟩

/-- The summary statistics of the `if trace_depths:` block (lines 233-257):
min, max, mean (`sum/len`) and median (`sorted(...)[len // 2]`) of the
depths and the breadths, and the deepest trace. -/
structure DepthStats where
  minDepth : Nat
  maxDepth : Nat
  meanDepth : ℚ
  medianDepth : Nat
  minBreadth : Nat
  maxBreadth : Nat
  meanBreadth : ℚ
  medianBreadth : Nat
  deepestTrace : String

def depthStats (td tb : List (String × Nat)) : Except PyError (Option DepthStats) :=
  if td.isEmpty then pure none
  else
    pyMin (td.map (·.2)) >>= fun dmin =>
    pyMax (td.map (·.2)) >>= fun dmax =>
    pyDiv ((td.map (·.2)).foldl (· + ·) 0) (td.map (·.2)).length >>= fun dmean =>
    pyIndex ((td.map (·.2)).mergeSort (· ≤ ·)) ((td.map (·.2)).length / 2) >>= fun dmed =>
    pyMin (tb.map (·.2)) >>= fun bmin =>
    pyMax (tb.map (·.2)) >>= fun bmax =>
    pyDiv ((tb.map (·.2)).foldl (· + ·) 0) (tb.map (·.2)).length >>= fun bmean =>
    pyIndex ((tb.map (·.2)).mergeSort (· ≤ ·)) ((tb.map (·.2)).length / 2) >>= fun bmed =>
    pyMaxKey td >>= fun deepest =>
    pure (some ⟨dmin, dmax, dmean, dmed, bmin, bmax, bmean, bmed, deepest⟩)

/-- All reports of one analysis pass, in the order `main` (lines 456-461)
runs them: span relationships, orphans, trace structure (multi-root
finding), trace depth/breadth with summary statistics, cross-service
calls. -/
structure Reports where
  rel : RelReport
  orphans : List SpanRecord
  multiRoot : List (String × Nat)
  depths : List (String × Nat)
  breadths : List (String × Nat)
  stats : Option DepthStats
  crossCalls : List CrossCall

def fullAnalysis (df : List SpanRecord) : Except PyError Reports :=
  analyzeSpanRelationships df >>= fun rel =>
  depthStats (traceDepths df) (traceBreadths df) >>= fun st =>
  pure ⟨rel, orphanedSpans df, multiRootTraces df, traceDepths df,
    traceBreadths df, st, crossServiceCalls df⟩

theorem bindOk {ε α β : Type} {e : Except ε α} {a : α} (f : α → Except ε β)
    (h : e = .ok a) : (e >>= f) = f a := by
  rw [h]
  rfl

theorem pyDiv_ok (a b : Nat) (h : b ≠ 0) :
    pyDiv a b = .ok ((a : ℚ) / (b : ℚ)) := by
  rw [pyDiv, if_neg h]

theorem pyIndex_ok {α : Type} (l : List α) (i : Nat) (h : i < l.length) :
    ∃ w, pyIndex l i = .ok w := by
  rw [pyIndex]
  cases hg : l.get? i with
  | none =>
    rw [List.get?_eq_none] at hg
    omega
  | some w => exact ⟨w, rfl⟩

theorem pyMin_ok (l : List Nat) (h : l ≠ []) : ∃ v, pyMin l = .ok v := by
  cases l with
  | nil => exact absurd rfl h
  | cons v vs => exact ⟨_, rfl⟩

theorem pyMax_ok (l : List Nat) (h : l ≠ []) : ∃ v, pyMax l = .ok v := by
  cases l with
  | nil => exact absurd rfl h
  | cons v vs => exact ⟨_, rfl⟩

theorem pyMaxKey_ok (m : List (String × Nat)) (h : m ≠ []) :
    ∃ v, pyMaxKey m = .ok v := by
  cases m with
  | nil => exact absurd rfl h
  | cons p ps => exact ⟨_, rfl⟩

theorem kindPcts_ok (l : List (Nat × Nat)) (n : Nat) (h : n ≠ 0 ∨ l = []) :
    ∃ v, kindPcts l n = .ok v := by
  induction l with
  | nil => exact ⟨[], rfl⟩
  | cons kc rest ih =>
    rcases h with h | h
    · obtain ⟨v, hv⟩ := ih (Or.inl h)
      refine ⟨(kc.1, (kc.2 : ℚ) / (n : ℚ) * 100) :: v, ?_⟩
      rw [kindPcts, bindOk _ (pyDiv_ok kc.2 n h), bindOk _ hv]
      rfl
    · cases h

theorem length_mapValueAt {α : Type} (m : List (String × α)) (k : String) (g : α → α) :
    (mapValueAt m k g).length = m.length := by
  induction m with
  | nil => rfl
  | cons p m ih => rw [mapValueAt, List.length_cons, List.length_cons, ih]

theorem foldl_metricsStep_length (df : List SpanRecord) (roots : List SpanRecord) :
    ∀ m1 m2 : List (String × Nat), m1.length = m2.length →
      (roots.foldl (metricsStep df) (m1, m2)).1.length =
        (roots.foldl (metricsStep df) (m1, m2)).2.length := by
  induction roots with
  | nil => intro m1 m2 h; exact h
  | cons r roots ih =>
    intro m1 m2 h
    rw [List.foldl_cons]
    by_cases hk : hasKey m1 r.trace_id
    · rw [show metricsStep df (m1, m2) r =
          (mapValueAt m1 r.trace_id (fun a => Nat.max a (calculateDepth df [] r.span_id)),
           mapValueAt m2 r.trace_id (fun a => Nat.max a ((childrenOf df r.span_id).length)))
          from by rw [metricsStep]; simp [hk]]
      exact ih _ _ (by rw [length_mapValueAt, length_mapValueAt, h])
    · rw [show metricsStep df (m1, m2) r =
          (m1 ++ [(r.trace_id, calculateDepth df [] r.span_id)],
           m2 ++ [(r.trace_id, (childrenOf df r.span_id).length)])
          from by rw [metricsStep]; simp [hk]]
      exact ih _ _ (by simp [h])

theorem traceDepths_length_eq (df : List SpanRecord) :
    (traceDepths df).length = (traceBreadths df).length :=
  foldl_metricsStep_length df (rootSpans df) [] [] rfl

theorem depthStats_ok (td tb : List (String × Nat)) (hlen : td.length = tb.length) :
    ∃ v, depthStats td tb = .ok v := by
  by_cases htd : td.isEmpty
  · exact ⟨none, by rw [depthStats, if_pos htd]; rfl⟩
  · have htd' : td ≠ [] := by cases td <;> simp_all
    have htdpos : 0 < td.length := List.length_pos.mpr htd'
    have htb' : tb ≠ [] := by
      intro hh
      rw [hh] at hlen
      simp only [List.length_nil] at hlen
      exact htd' (List.length_eq_zero.mp hlen)
    have htbpos : 0 < tb.length := List.length_pos.mpr htb'
    have hmapd : (td.map (fun x : String × Nat => x.2)) ≠ [] := by
      simpa [List.map_eq_nil_iff] using htd'
    have hmapb : (tb.map (fun x : String × Nat => x.2)) ≠ [] := by
      simpa [List.map_eq_nil_iff] using htb'
    have hlenmapd : (td.map (fun x : String × Nat => x.2)).length = td.length := by simp
    have hlenmapb : (tb.map (fun x : String × Nat => x.2)).length = tb.length := by simp
    obtain ⟨dmin, h1⟩ := pyMin_ok (td.map (·.2)) hmapd
    obtain ⟨dmax, h2⟩ := pyMax_ok (td.map (·.2)) hmapd
    have h3 := pyDiv_ok ((td.map (·.2)).foldl (· + ·) 0) (td.map (·.2)).length
      (by rw [hlenmapd]; omega)
    obtain ⟨dmed, h4⟩ := pyIndex_ok ((td.map (·.2)).mergeSort (· ≤ ·))
      ((td.map (·.2)).length / 2) (by rw [List.length_mergeSort, hlenmapd]; omega)
    obtain ⟨bmin, h5⟩ := pyMin_ok (tb.map (·.2)) hmapb
    obtain ⟨bmax, h6⟩ := pyMax_ok (tb.map (·.2)) hmapb
    have h7 := pyDiv_ok ((tb.map (·.2)).foldl (· + ·) 0) (tb.map (·.2)).length
      (by rw [hlenmapb]; omega)
    obtain ⟨bmed, h8⟩ := pyIndex_ok ((tb.map (·.2)).mergeSort (· ≤ ·))
      ((tb.map (·.2)).length / 2) (by rw [List.length_mergeSort, hlenmapb]; omega)
    obtain ⟨deepest, h9⟩ := pyMaxKey_ok td htd'
    refine ⟨some ⟨dmin, dmax,
      (((td.map (fun x : String × Nat => x.2)).foldl (· + ·) 0 : Nat) : ℚ) /
        (((td.map (fun x : String × Nat => x.2)).length : Nat) : ℚ), dmed, bmin, bmax,
      (((tb.map (fun x : String × Nat => x.2)).foldl (· + ·) 0 : Nat) : ℚ) /
        (((tb.map (fun x : String × Nat => x.2)).length : Nat) : ℚ), bmed, deepest⟩, ?_⟩
    rw [depthStats, if_neg htd, bindOk _ h1, bindOk _ h2, bindOk _ h3, bindOk _ h4,
      bindOk _ h5, bindOk _ h6, bindOk _ h7, bindOk _ h8, bindOk _ h9]
    rfl

theorem analyzeSpanRelationships_ok (df : List SpanRecord) (h : df ≠ []) :
    ∃ v, analyzeSpanRelationships df = .ok v := by
  have hlen : df.length ≠ 0 := by
    simpa [List.length_eq_zero] using h
  have hr : (rootSpans df).length ≠ 0 ∨ kindCounts (rootSpans df) = [] := by
    by_cases hh : rootSpans df = []
    · exact Or.inr (by simp [kindCounts, kindValues, hh])
    · exact Or.inl (by simpa [List.length_eq_zero] using hh)
  have hc : (childSpans df).length ≠ 0 ∨ kindCounts (childSpans df) = [] := by
    by_cases hh : childSpans df = []
    · exact Or.inr (by simp [kindCounts, kindValues, hh])
    · exact Or.inl (by simpa [List.length_eq_zero] using hh)
  have h1 := pyDiv_ok (rootSpans df).length df.length hlen
  have h2 := pyDiv_ok (childSpans df).length df.length hlen
  obtain ⟨v3, h3⟩ := kindPcts_ok (kindCounts (rootSpans df)) (rootSpans df).length hr
  obtain ⟨v4, h4⟩ := kindPcts_ok (kindCounts (childSpans df)) (childSpans df).length hc
  refine ⟨⟨duplicateSpanIds df,
    ((rootSpans df).length : ℚ) / (df.length : ℚ) * 100,
    ((childSpans df).length : ℚ) / (df.length : ℚ) * 100, v3, v4⟩, ?_⟩
  rw [analyzeSpanRelationships, bindOk _ h1, bindOk _ h2, bindOk _ h3, bindOk _ h4]
  rfl

theorem fullAnalysis_ok (df : List SpanRecord) (h : df ≠ []) :
    ∃ v, fullAnalysis df = .ok v := by
  obtain ⟨rel, h1⟩ := analyzeSpanRelationships_ok df h
  obtain ⟨st, h2⟩ := depthStats_ok (traceDepths df) (traceBreadths df)
    (traceDepths_length_eq df)
  refine ⟨⟨rel, orphanedSpans df, multiRootTraces df, traceDepths df,
    traceBreadths df, st, crossServiceCalls df⟩, ?_⟩
  rw [fullAnalysis, bindOk _ h1, bindOk _ h2]
  rfl

/-! ### Concrete scenarios

The concrete inputs named by the spec's testable properties: the
web/cart/payment chain, a single childless root, a cyclic parent chain
under a root, duplicated span ids, a two-root trace, a dangling parent
reference and a parent reference crossing traces. -/

def spanA : SpanRecord := ⟨"T1", "A", "", "web", "GET /", 2⟩

def spanB : SpanRecord := ⟨"T1", "B", "A", "cart", "GET /cart", 2⟩

def spanC : SpanRecord := ⟨"T1", "C", "B", "payment", "POST /pay", 2⟩

def chainDf : List SpanRecord := [spanA, spanB, spanC]

def chainRank : String → Nat :=
  fun s => if s = "A" then 2 else if s = "B" then 1 else 0

def spanD : SpanRecord := ⟨"T0", "D", "", "web", "GET /", 2⟩

def singleDf : List SpanRecord := [spanD]

def cycleDf : List SpanRecord :=
  [⟨"T", "R", "", "web", "root", 2⟩,
   ⟨"T", "X", "R", "cart", "x", 3⟩,
   ⟨"T", "Y", "X", "web", "y", 3⟩,
   ⟨"T", "X", "Y", "cart", "x again", 3⟩]

def dupA : SpanRecord := ⟨"TA", "s1", "", "web", "first", 2⟩

def dupB : SpanRecord := ⟨"TB", "s1", "", "cart", "second", 2⟩

def dupDf : List SpanRecord := [dupA, dupB]

def rootU : SpanRecord := ⟨"T2", "u", "", "web", "u", 2⟩

def rootV : SpanRecord := ⟨"T2", "v", "", "cart", "v", 2⟩

def twoRootDf : List SpanRecord := [rootU, rootV]

def orphanD : SpanRecord := ⟨"T", "d", "zzz", "web", "d", 3⟩

def orphanDf : List SpanRecord := [orphanD]

def xRoot : SpanRecord := ⟨"T1", "A", "", "web", "a", 2⟩

def xChild : SpanRecord := ⟨"T2", "B", "A", "cart", "b", 3⟩

def crossTraceDf : List SpanRecord := [xRoot, xChild]

theorem chainRank_decreasing :
    ∀ p c, c ∈ childrenOf chainDf p → chainRank c < chainRank p := by
  intro p c hc
  rw [mem_childrenOf] at hc
  obtain ⟨r, hr, hne, hp, hcid⟩ := hc
  simp only [chainDf, List.mem_cons, List.not_mem_nil, or_false] at hr
  rcases hr with rfl | rfl | rfl
  · exact absurd rfl hne
  · rw [← hp, ← hcid]; decide
  · rw [← hp, ← hcid]; decide

theorem singleDf_no_children : ∀ p, childrenOf singleDf p = [] := fun _ => rfl

theorem chain_depth_C : calculateDepth chainDf ["B", "A"] "C" = 1 := by
  rw [calculateDepth_eq, if_neg (by decide), if_pos (by decide)]

theorem chain_depth_B : calculateDepth chainDf ["A"] "B" = 2 := by
  rw [calculateDepth_eq, if_neg (by decide), if_neg (by decide),
    show childrenOf chainDf "B" = ["C"] from by decide,
    List.map_cons, List.map_nil, chain_depth_C]
  decide

theorem chain_depth_A : calculateDepth chainDf [] "A" = 3 := by
  rw [calculateDepth_eq, if_neg (by decide), if_neg (by decide),
    show childrenOf chainDf "A" = ["B"] from by decide,
    List.map_cons, List.map_nil, chain_depth_B]
  decide

theorem cycle_depth_X2 : calculateDepth cycleDf ["Y", "X", "R"] "X" = 0 := by
  rw [calculateDepth_eq, if_pos (by decide)]

theorem cycle_depth_Y : calculateDepth cycleDf ["X", "R"] "Y" = 1 := by
  rw [calculateDepth_eq, if_neg (by decide), if_neg (by decide),
    show childrenOf cycleDf "Y" = ["X"] from by decide,
    List.map_cons, List.map_nil, cycle_depth_X2]
  decide

theorem cycle_depth_X : calculateDepth cycleDf ["R"] "X" = 2 := by
  rw [calculateDepth_eq, if_neg (by decide), if_neg (by decide),
    show childrenOf cycleDf "X" = ["Y"] from by decide,
    List.map_cons, List.map_nil, cycle_depth_Y]
  decide

theorem cycle_depth_R : calculateDepth cycleDf [] "R" = 3 := by
  rw [calculateDepth_eq, if_neg (by decide), if_neg (by decide),
    show childrenOf cycleDf "R" = ["X"] from by decide,
    List.map_cons, List.map_nil, cycle_depth_X]
  decide

theorem cross_depth_B : calculateDepth crossTraceDf ["A"] "B" = 1 := by
  rw [calculateDepth_eq, if_neg (by decide), if_pos (by decide)]

theorem cross_depth_A : calculateDepth crossTraceDf [] "A" = 2 := by
  rw [calculateDepth_eq, if_neg (by decide), if_neg (by decide),
    show childrenOf crossTraceDf "A" = ["B"] from by decide,
    List.map_cons, List.map_nil, cross_depth_B]
  decide

theorem optMaxList_cons (v : Nat) (l : List Nat) :
    optMaxList (v :: l) = some (l.foldl Nat.max v) := by
  show optFoldMax (some v) l = some (l.foldl Nat.max v)
  exact optFoldMax_some v l

theorem count_map_spanId (df : List SpanRecord) (sid : String) :
    (df.map (·.span_id)).count sid = df.countP (fun r => r.span_id == sid) := by
  induction df with
  | nil => rfl
  | cons r df ih =>
    rw [List.map_cons, List.count_cons, List.countP_cons, ih]

/-! ### The claims -/

/-- C1: for every trace with a single resolvable root and an acyclic parent
relation (witnessed by a rank function that strictly decreases from parent
to child), the computed depth of the trace is `calculate_depth` of its
root, which satisfies the recursive definition: depth 1 at a span with no
entries in the children mapping, else one plus the maximum of the
children's depths; and the trace's breadth is the number of immediate
children of its root. -/
theorem claim_C1_depth_recursive (df : List SpanRecord) (rank : String → Nat)
    (hrank : ∀ p c, c ∈ childrenOf df p → rank c < rank p)
    (tid : String) (root : SpanRecord) (hroot : rootsOfTrace df tid = [root]) :
    lookupA (traceDepths df) tid = some (calculateDepth df [] root.span_id) ∧
    lookupA (traceBreadths df) tid = some ((childrenOf df root.span_id).length) ∧
    (∀ s, calculateDepth df [] s =
      if childrenOf df s = [] then 1
      else 1 + ((childrenOf df s).map (fun c => calculateDepth df [] c)).foldl Nat.max 0) := by
  refine ⟨?_, ?_, fun s => calculateDepth_recursion df rank hrank s⟩
  · rw [lookupA_traceDepths, hroot, List.map_cons, List.map_nil, optMaxList_cons]
    rfl
  · rw [lookupA_traceBreadths, hroot, List.map_cons, List.map_nil, optMaxList_cons]
    rfl

/-- C1 witness: the web/cart/payment chain has depth 3 and breadth 1, and a
trace whose root has no children has depth 1. -/
theorem claim_C1_witness :
    lookupA (traceDepths chainDf) "T1" = some 3 ∧
    lookupA (traceBreadths chainDf) "T1" = some 1 ∧
    lookupA (traceDepths singleDf) "T0" = some 1 := by
  obtain ⟨hd, hb, -⟩ := claim_C1_depth_recursive chainDf chainRank chainRank_decreasing
    "T1" spanA (by decide)
  obtain ⟨hd2, -, -⟩ := claim_C1_depth_recursive singleDf (fun _ => 0)
    (fun p c hc => by
      rw [singleDf_no_children p] at hc
      exact absurd hc (List.not_mem_nil c))
    "T0" spanD (by decide)
  refine ⟨?_, ?_, ?_⟩
  · rw [hd]
    show some (calculateDepth chainDf [] "A") = some 3
    rw [chain_depth_A]
  · rw [hb]
    decide
  · rw [hd2]
    show some (calculateDepth singleDf [] "D") = some 1
    rw [calculateDepth_eq, if_neg (by decide), if_pos (singleDf_no_children "D")]

/-- C2: the depth computation is a total function (so it terminates on every
finite input, cyclic parent relations included); a span revisited while on
the active path contributes depth 0; every trace with at least one root span
gets a finite depth entry; and the concrete cyclic input `cycleDf` (a root
above the two-cycle X <-> Y) gets the finite depth 3. -/
theorem claim_C2_cycle_safety (df : List SpanRecord) :
    (∀ visited s, s ∈ visited → calculateDepth df visited s = 0) ∧
    (∀ tid, tid ∈ (rootSpans df).map (·.trace_id) →
      ∃ d, lookupA (traceDepths df) tid = some d) ∧
    lookupA (traceDepths cycleDf) "T" = some 3 := by
  refine ⟨fun visited s h => calculateDepth_of_mem df visited s h, ?_, ?_⟩
  · intro tid htid
    rw [lookupA_traceDepths]
    rcases List.mem_map.mp htid with ⟨r, hr, hrt⟩
    cases hjs : rootsOfTrace df tid with
    | nil =>
      exfalso
      have hmem : r ∈ rootsOfTrace df tid := List.mem_filter.mpr ⟨hr, by simp [hrt]⟩
      rw [hjs] at hmem
      exact List.not_mem_nil r hmem
    | cons a l =>
      rw [List.map_cons, optMaxList_cons]
      exact ⟨_, rfl⟩
  · rw [lookupA_traceDepths,
      show rootsOfTrace cycleDf "T" = [⟨"T", "R", "", "web", "root", 2⟩] from by decide,
      List.map_cons, List.map_nil, optMaxList_cons]
    show some (calculateDepth cycleDf [] "R") = some 3
    rw [cycle_depth_R]

/-- C3 counterexample: with two records sharing span id `s1` (first from
service `web`, second from service `cart`), both the service dict of
`analyze_cross_service_calls` and the info dict of `analyze_trace_depth`
resolve `s1` to the SECOND record, not the first as claimed. -/
theorem claim_C3_counterexample :
    lookupA (spanToService dupDf) "s1" = some "cart" ∧
    lookupA (spanToService dupDf) "s1" ≠ some "web" ∧
    lookupA (spanToInfo dupDf) "s1" = some ⟨"TB", "cart", "second", 2⟩ := by
  decide

/-- C3 amended: when records share a span_id, the LAST record in input order
wins for indexing purposes — both id-keyed dicts resolve a span id to the
last record carrying it — and every record whose span_id occurs more than
once (the first occurrence included) is reported as a duplicate. -/
theorem claim_C3_last_record_wins (df : List SpanRecord) (sid : String) :
    lookupA (spanToService df) sid =
      ((df.filter (fun r => r.span_id == sid)).map (·.service_name)).getLast? ∧
    lookupA (spanToInfo df) sid =
      ((df.filter (fun r => r.span_id == sid)).map
        (fun r => SpanInfo.mk r.trace_id r.service_name r.span_name r.span_kind)).getLast? ∧
    (∀ r, r ∈ duplicateSpanIds df ↔
      r ∈ df ∧ 2 ≤ df.countP (fun s => s.span_id == r.span_id)) := by
  refine ⟨lookupA_buildDict _ df sid, lookupA_buildDict _ df sid, fun r => ?_⟩
  rw [duplicateSpanIds, List.mem_filter]
  simp

/-- C4: a trace with more than one root is reported with its root count;
the depth and breadth of any trace are the maximum (not the sum) of the
per-root values; traces with zero roots are excluded from the metrics; and
the concrete two-childless-root trace T2 has depth 1 and a multi-root
finding with count 2. -/
theorem claim_C4_multi_root (df : List SpanRecord) (tid : String) :
    ((tid, rootCount df tid) ∈ multiRootTraces df ↔
      tid ∈ df.map (·.trace_id) ∧ 1 < rootCount df tid) ∧
    lookupA (traceDepths df) tid =
      optMaxList ((rootsOfTrace df tid).map (fun r => calculateDepth df [] r.span_id)) ∧
    lookupA (traceBreadths df) tid =
      optMaxList ((rootsOfTrace df tid).map (fun r => (childrenOf df r.span_id).length)) ∧
    (rootsOfTrace df tid = [] → lookupA (traceDepths df) tid = none) ∧
    lookupA (traceDepths twoRootDf) "T2" = some 1 ∧
    ("T2", 2) ∈ multiRootTraces twoRootDf := by
  refine ⟨⟨?_, ?_⟩, lookupA_traceDepths df tid, lookupA_traceBreadths df tid, ?_, ?_, ?_⟩
  · intro hmem
    rcases List.mem_filterMap.mp hmem with ⟨t, ht, hft⟩
    by_cases hgt : 1 < rootCount df t
    · rw [if_pos hgt] at hft
      simp only [Option.some.injEq, Prod.mk.injEq] at hft
      obtain ⟨rfl, hc2⟩ := hft
      exact ⟨(mem_traceIds df t).mp ht, hc2 ▸ hgt⟩
    · rw [if_neg hgt] at hft
      cases hft
  · rintro ⟨hmem, hgt⟩
    exact List.mem_filterMap.mpr
      ⟨tid, (mem_traceIds df tid).mpr hmem, by rw [if_pos hgt]⟩
  · intro h
    rw [lookupA_traceDepths, h]
    rfl
  · rw [lookupA_traceDepths,
      show rootsOfTrace twoRootDf "T2" = [rootU, rootV] from by decide,
      List.map_cons, List.map_cons, List.map_nil]
    have hu : calculateDepth twoRootDf [] rootU.span_id = 1 := by
      rw [calculateDepth_eq, if_neg (by decide), if_pos (by decide)]
    have hv : calculateDepth twoRootDf [] rootV.span_id = 1 := by
      rw [calculateDepth_eq, if_neg (by decide), if_pos (by decide)]
    rw [hu, hv, optMaxList_cons]
    decide
  · exact List.mem_filterMap.mpr
      ⟨"T2", (mem_traceIds twoRootDf "T2").mpr (by decide), by decide⟩

/-- C5: the orphan report contains exactly the records with a non-empty
parent reference that is no record's span id anywhere in the corpus (a
whole-corpus check); and a single span `d` with parent `zzz` yields exactly
the one orphan finding `(d, zzz)`. -/
theorem claim_C5_orphans (df : List SpanRecord) (r : SpanRecord) :
    (r ∈ orphanedSpans df ↔
      r ∈ df ∧ r.parent_span_id ≠ "" ∧ r.parent_span_id ∉ df.map (·.span_id)) ∧
    (orphanedSpans orphanDf).map (fun o => (o.span_id, o.parent_span_id)) =
      [("d", "zzz")] := by
  constructor
  · simp [orphanedSpans, childSpans, allSpanIds, List.mem_filter, and_assoc]
    tauto
  · decide

/-- C6: for distinct services p and c, the cross-service edge count for
(p, c) is the number of records whose non-empty parent reference resolves
(through the service dict) to service p while the record's own service is c;
same-service pairs contribute no edge; and the chain gives exactly the edges
(web, cart) and (cart, payment), once each. -/
theorem claim_C6_cross_service_edges (df : List SpanRecord) (p c : String) (hpc : p ≠ c) :
    edgeCount df p c =
      (df.filter (fun r => r.parent_span_id != "" &&
        (lookupA (spanToService df) r.parent_span_id == some p) &&
        (r.service_name == c))).length ∧
    edgeCount df p p = 0 ∧
    (crossServiceCalls chainDf).map (fun cc => (cc.parent_service, cc.child_service)) =
      [("web", "cart"), ("cart", "payment")] ∧
    edgeCount chainDf "web" "cart" = 1 ∧
    edgeCount chainDf "cart" "payment" = 1 := by
  refine ⟨crossCalls_countP (spanToService df) df p c hpc, ?_, by decide, by decide, by decide⟩
  rw [edgeCount, List.countP_eq_zero]
  intro cc hcc
  have hne := crossCall_services_ne df cc hcc
  simp only [Bool.and_eq_true, beq_iff_eq]
  exact fun hh => hne (hh.1.trans hh.2.symm)

/-- C6 witness: the chain instantiates the edge-count equation at the
distinct pair (web, cart). -/
theorem claim_C6_witness :
    "web" ≠ "cart" ∧ edgeCount chainDf "web" "cart" =
      (chainDf.filter (fun r => r.parent_span_id != "" &&
        (lookupA (spanToService chainDf) r.parent_span_id == some "web") &&
        (r.service_name == "cart"))).length := by
  have h := claim_C6_cross_service_edges chainDf "web" "cart" (by decide)
  exact ⟨by decide, h.1⟩

/-- C8: the duplicate finding is empty exactly when all span ids are
pairwise distinct, and it lists every record (all occurrences) whose span id
occurs on more than one record. -/
theorem claim_C8_duplicate_iff (df : List SpanRecord) :
    (duplicateSpanIds df = [] ↔ (df.map (·.span_id)).Nodup) ∧
    (∀ r, r ∈ duplicateSpanIds df ↔
      r ∈ df ∧ 2 ≤ df.countP (fun s => s.span_id == r.span_id)) := by
  constructor
  · rw [duplicateSpanIds, List.filter_eq_nil_iff, List.nodup_iff_count_le_one]
    constructor
    · intro h sid
      rw [count_map_spanId]
      by_cases hex : ∃ r ∈ df, r.span_id = sid
      · obtain ⟨r, hr, rfl⟩ := hex
        have := h r hr
        simp only [decide_eq_true_eq] at this
        omega
      · have hz : df.countP (fun r => r.span_id == sid) = 0 := by
          rw [List.countP_eq_zero]
          intro a ha
          simp only [beq_iff_eq]
          exact fun hh => hex ⟨a, ha, hh⟩
        omega
    · intro h r hr
      simp only [decide_eq_true_eq]
      intro h2
      have := h r.span_id
      rw [count_map_spanId] at this
      omega
  · intro r
    rw [duplicateSpanIds, List.mem_filter]
    simp

/-- C9 counterexample: on the empty input sequence the analysis does NOT
complete — the root-percentage computation at line 51 divides by
`total_spans = 0` and raises `ZeroDivisionError`. -/
theorem claim_C9_counterexample :
    fullAnalysis [] = .error PyError.zeroDivision := rfl

/-- C9 amended: for every NON-EMPTY input sequence — duplicates, orphans,
cycles and zero-root traces included — the full analysis completes without
raising and produces all of its reports; the empty sequence is the one
input on which it raises. -/
theorem claim_C9_nonempty_never_fatal (df : List SpanRecord) (h : df ≠ []) :
    ∃ reports, fullAnalysis df = .ok reports :=
  fullAnalysis_ok df h

/-- C9 witness: the three-span chain is analyzed without error. -/
theorem claim_C9_witness : ∃ reports, fullAnalysis chainDf = .ok reports :=
  claim_C9_nonempty_never_fatal chainDf (by decide)

/-- C10: the children adjacency, the depth walk, and the cross-service and
orphan derivations are keyed solely by span id — arbitrarily relabelling
every record's trace id changes none of them — and on the concrete
cross-trace input (root A in T1, child B in T2 with parent A) the child is
traversed as A's child, T1 gets depth 2 and breadth 1, the (web, cart)
edge is produced, and no finding of any kind is flagged. -/
theorem claim_C10_span_id_keyed (f : SpanRecord → String) (df : List SpanRecord) :
    (∀ p, childrenOf (relabel f df) p = childrenOf df p) ∧
    (∀ visited s, calculateDepth (relabel f df) visited s = calculateDepth df visited s) ∧
    ((crossServiceCalls (relabel f df)).map (fun cc => (cc.parent_service, cc.child_service)) =
      (crossServiceCalls df).map (fun cc => (cc.parent_service, cc.child_service))) ∧
    ((orphanedSpans (relabel f df)).map (·.span_id) =
      (orphanedSpans df).map (·.span_id)) ∧
    childrenOf crossTraceDf "A" = ["B"] ∧
    lookupA (traceDepths crossTraceDf) "T1" = some 2 ∧
    lookupA (traceBreadths crossTraceDf) "T1" = some 1 ∧
    (crossServiceCalls crossTraceDf).map (fun cc => (cc.parent_service, cc.child_service)) =
      [("web", "cart")] ∧
    orphanedSpans crossTraceDf = [] ∧
    duplicateSpanIds crossTraceDf = [] ∧
    multiRootTraces crossTraceDf = [] := by
  refine ⟨childrenOf_relabel f df, calculateDepth_relabel f df,
    crossServiceCalls_relabel f df, orphanedSpans_relabel f df, by decide,
    ?_, ?_, by decide, by decide, by decide, ?_⟩
  · rw [lookupA_traceDepths,
      show rootsOfTrace crossTraceDf "T1" = [xRoot] from by decide,
      List.map_cons, List.map_nil, optMaxList_cons]
    show some (calculateDepth crossTraceDf [] "A") = some 2
    rw [cross_depth_A]
  · rw [lookupA_traceBreadths,
      show rootsOfTrace crossTraceDf "T1" = [xRoot] from by decide,
      List.map_cons, List.map_nil, optMaxList_cons]
    decide
  · rw [multiRootTraces, List.filterMap_eq_nil_iff]
    intro t ht
    rw [mem_traceIds] at ht
    have ht2 : t = "T1" ∨ t = "T2" := by
      simpa [crossTraceDf, xRoot, xChild] using ht
    rcases ht2 with rfl | rfl <;> decide

end TraceAnalysis
